import Mathlib

/-!
Verification of the git-integration synchronizer of python-sasctl
(`src/sasctl/pzmm/git_integration.py`) against its natural-language
specification.

The embedding is a shallow one:

* Machine state is explicit.  The remote SAS Model Manager service is a
  `Remote` record (projects and models); the local working tree is a
  `LocalFS` record.  Every embedded operation takes the states it reads
  and returns the states it leaves behind together with an
  `Except PzmmError` result, so that an operation that raises mid-way
  still reports the state reached at the raise.
* Directories are flat maps from file names to file data (`Dir`), since
  every file operation in the source acts on the immediate entries of a
  single model directory.  Path strings (`git_path`) are not modelled:
  directories are keyed by `(project_name, model_name)`, which is how the
  source addresses them under one `git_path`.
* Python exceptions are the constructors of `PzmmError`, one per raise
  site (or per built-in exception the source can trigger).
* External collaborators (the REST client `mr`, documented in spec section 6)
  are modelled as lookups/updates on `Remote`; the response shape of the
  model-listing endpoint, which the source's own comments say may be a
  single JSON object instead of a list, is an explicit `ModelsResponse`
  argument produced by a caller-supplied `shape` function.
-/

/-- File contents.  A regular file holds opaque bytes; a `.zip` file holds a
flat archive: an ordered list of (entry name, entry data) pairs, mirroring
the order in which `zipfile.ZipFile.write` was called. -/
inductive FData where
  | bytes : List Nat → FData
  | zip : List (String × FData) → FData

/-- A directory: the immediate entries of one filesystem directory, as an
association list from file name to file data (file names are unique in a
real directory). -/
abbrev Dir := List (String × FData)

/-- Python `fnmatch` of the pattern `*.zip` used by `Path.glob("*.zip")`:
a name matches iff it ends with ".zip" (`*` also matches the empty string,
and matching is case sensitive on POSIX). -/
def endsWithZip (s : String) : Bool :=
  ".zip".data.isSuffixOf s.data

/-- Writing a file: overwrite the entry with this name if present, else
append a new entry (as a filesystem write does). -/
def writeEntry (name : String) (d : FData) : Dir → Dir
  | [] => [(name, d)]
  | (n, d0) :: rest =>
    if n = name then (n, d) :: rest else (n, d0) :: writeEntry name d rest

/-- Reading a file by name from a directory. -/
def lookupEntry (d : Dir) (name : String) : Option FData :=
  (d.find? (fun e => decide (e.1 = name))).map (·.2)

/-- A directory with no `*.zip` entry. -/
def noZips (d : Dir) : Bool :=
  d.all (fun e => !endsWithZip e.1)

/-- Whether a directory has an entry with the given name. -/
def hasName (d : Dir) (n : String) : Bool :=
  d.any (fun e => decide (e.1 = n))

/-- The names of the `*.zip` entries of a directory. -/
def zipEntries (d : Dir) : Dir :=
  d.filter (fun e => endsWithZip e.1)

/-- Comparison used by Python's `sorted` on the paths returned by
`Path.glob("*")`: within a single directory, paths compare by file name,
lexicographically by character (Lean's string order on `.data`, phrased
through the list order so that it evaluates). -/
def nameLe (a b : String) : Bool := !decide (b.data < a.data)

/-- Insert one entry into a name-sorted list of entries. -/
def insertSorted (x : String × FData) : List (String × FData) → List (String × FData)
  | [] => [x]
  | y :: ys => if nameLe x.1 y.1 then x :: y :: ys else y :: insertSorted x ys

/-- `sorted(...)` on directory entries: sort by file name (insertion sort;
the source's sort is only observed through the resulting order). -/
def sortByName (l : List (String × FData)) : List (String × FData) :=
  l.foldr insertSorted []

/-- A remote Model Manager project (`RestObj` with the fields the source
reads). -/
structure RProject where
  id : String
  name : String
deriving DecidableEq, Repr

/-- A remote Model Manager model (`RestObj` with the fields the source
reads).  `content` is what `GET models/{id}?format=zip` returns. -/
structure RModel where
  id : String
  name : String
  projectId : String
  projectName : String
  content : FData

/-- The remote SAS Model Manager state. -/
structure Remote where
  projects : List RProject
  models : List RModel

/-- The external client's `mr.get_project`: resolves a project reference
(name or id) to a project, `none` when the lookup fails; a `None` argument
resolves nothing. -/
def getProject (r : Remote) : Option String → Option RProject
  | none => none
  | some s => r.projects.find? (fun p => p.name == s || p.id == s)

/-- The external client's `mr.get_model`, as used by the source: every call
site passes a model id (UUID or `RestObj.id`), so it is modelled as an id
lookup. -/
def getModel (r : Remote) (id : String) : Option RModel :=
  r.models.find? (fun m => m.id == id)

/-- The models of one project, as listed by `GET /projects/{id}/models`. -/
def modelsOf (r : Remote) (pid : String) : List RModel :=
  r.models.filter (fun m => m.projectId == pid)

/-- The JSON shape of the model-listing response.  The source's comments
state the endpoint returns a single object instead of a list when the
project holds exactly one model; `single m fields` carries that object and
the ordered key list of the JSON mapping (what Python's `for ... in dict`
iterates over). -/
inductive ModelsResponse where
  | list : List RModel → ModelsResponse
  | single : RModel → List String → ModelsResponse

/-- Python truthiness of the listing response (`if not model_response`):
an empty list and an empty mapping are falsy. -/
def ModelsResponse.falsy : ModelsResponse → Bool
  | .list ms => ms.isEmpty
  | .single _ fields => fields.isEmpty

/-- The effect of the `mr.delete_model` calls: every model whose id was
named in a delete call is removed (removal is idempotent, so repeating an
id is harmless to the state; the number of calls is still observable in
the delete log). -/
def applyDeletes (r : Remote) (ds : List String) : Remote :=
  { r with models := r.models.filter (fun m => !ds.contains m.id) }

/-- Hexadecimal digit, as accepted by Python's `int(s, 16)`. -/
def isHexDigit (c : Char) : Bool :=
  c.isDigit || (decide (Char.ofNat 97 ≤ c) && decide (c ≤ Char.ofNat 102)) ||
    (decide (Char.ofNat 65 ≤ c) && decide (c ≤ Char.ofNat 70))

/-- Python `str.replace(pat, "")`: remove non-overlapping occurrences of
`pat` left to right.  Fuelled by the input length (each step consumes at
least one character for the non-empty patterns used here). -/
def removeOccAux (pat : List Char) : Nat → List Char → List Char
  | 0, s => s
  | _ + 1, [] => []
  | fuel + 1, c :: rest =>
    if pat.isPrefixOf (c :: rest) then removeOccAux pat fuel ((c :: rest).drop pat.length)
    else c :: removeOccAux pat fuel rest

def removeOcc (pat : List Char) (s : List Char) : List Char :=
  removeOccAux pat s.length s

/-- Python `str.strip` with the two brace characters (codepoints 123 and
125): drop them from both ends. -/
def stripBraces (s : List Char) : List Char :=
  let isBrace := fun c => c == Char.ofNat 123 || c == Char.ofNat 125
  ((s.dropWhile isBrace).reverse.dropWhile isBrace).reverse

/-- Success of Python's `uuid.UUID(s)` (and of sasctl's `is_uuid`, which
wraps it): strip `urn:` and `uuid:` occurrences, strip surrounding braces,
remove hyphens, then require exactly 32 hex digits.  (CPython's final
`int(hex, 16)` also tolerates exotica such as underscore separators or a
sign inside the 32 characters; no claim involves such inputs.) -/
def pyUUIDOk (s : String) : Bool :=
  let cs := removeOcc "uuid:".data (removeOcc "urn:".data s.data)
  let cs := (stripBraces cs).filter (fun c => c != '-')
  cs.length == 32 && cs.all isHexDigit

/-- Python truthiness of the optional project argument
(`if not project:` in `get_zipped_model`): `None` and `""` are falsy. -/
def optFalsy : Option String → Bool
  | none => true
  | some s => s.isEmpty

/-- The exceptions the embedded code can raise, one constructor per raise
site or triggered built-in exception. -/
inductive PzmmError where
  /-- `get_zipped_model`: `ValueError("The model cannot be determined accurately
  from just the model name. ...")` — the spec's `InvalidArgumentError`. -/
  | valueErrorNameNeedsProject
  /-- `pull_viya_model`: `SystemError("For models with only a provided name, a
  project name or UUID must also be supplied.")` — the spec's
  `InvalidArgumentError`. -/
  | systemErrorProjectRequired
  /-- `project_exists`: `SystemError("The provided UUID does not match any
  projects ...")` — the spec's `NotFoundError`. -/
  | systemErrorUUIDNotFound
  /-- `model_exists`: `ValueError("A model with the same model name exists in
  project {project.name}. Include the force=True argument ...")` — the spec's
  `ConflictError`; carries the project name interpolated into the message. -/
  | valueErrorModelConflict (projectName : String)
  /-- `push_git_model`: `TypeError` from `project_name + "/" + model_name`
  when exactly one of the two is `None`. -/
  | typeErrorNoneConcat
  /-- `model_exists`: `TypeError` from `project["id"]` when `mr.get_project`
  returned `None`. -/
  | typeErrorNoneSubscript
  /-- `pull_mm_project`: `FileNotFoundError("No models were found in the
  specified project. ...")`. -/
  | fileNotFoundNoModels
  /-- `pull_viya_model`: `UnboundLocalError` at the `model_path` line when the
  search loop never assigned `model_name`. -/
  | unboundLocalModelName
  /-- `AttributeError` from reading an attribute of `None` (e.g.
  `mr.get_model(...).projectName` when the model is unresolvable), or of a
  string during `for model in <single-object response>` in `pull_mm_project`. -/
  | attributeErrorNone
  /-- `get_zipped_model`: `IndexError` from `mr.list_models(...)[0]` when the
  name filter matches nothing. -/
  | indexError
  /-- `zipfile.ZipFile(path)` on a path with no file. -/
  | fileNotFoundMissingZip
  /-- `zipfile.BadZipFile` when the downloaded content is not an archive. -/
  | badZipFile
deriving DecidableEq, Repr

/-- Spec section 7 taxonomy: `InvalidArgumentError` is the "model name given
without a project reference" failure, raised as `ValueError` in
`get_zipped_model` and as `SystemError` in `pull_viya_model`. -/
def isInvalidArgumentError : PzmmError → Bool
  | .valueErrorNameNeedsProject => true
  | .systemErrorProjectRequired => true
  | _ => false

/-- `project_exists(response, project)` (git_integration.py lines 120-157).
`response` is the result of the caller's `mr.get_project` call; `project`
is the name-or-UUID reference (the claims only exercise string references).
On a failed lookup, a reference accepted by `UUID(...)` raises the
`SystemError`; otherwise `mr.create_project(project, <default repository>)`
appends one new project (given the fresh id `freshPid`) and returns it.
Returns the remote state left behind and the result. -/
def project_exists (r : Remote) (response : Option RProject) (project : String)
    (freshPid : String) : Remote × Except PzmmError RProject :=
  match response with
  | some resp => (r, .ok resp)
  | none =>
    if pyUUIDOk project then
      (r, .error .systemErrorUUIDNotFound)
    else
      let p : RProject := { id := freshPid, name := project }
      ({ r with projects := r.projects ++ [p] }, .ok p)

/-- The `for model in project_models` loop of `model_exists` when the
response is a list.  Returns the ids passed to `mr.delete_model`, in call
order, and the result (`ValueError` on a match with `force` unset). -/
def modelExistsList (pn n : String) (force : Bool) :
    List RModel → List String × Except PzmmError Unit
  | [] => ([], .ok ())
  | m :: rest =>
    if m.name = n then
      if force then
        let (ds, res) := modelExistsList pn n force rest
        (m.id :: ds, res)
      else ([], .error (.valueErrorModelConflict pn))
    else modelExistsList pn n force rest

/-- The same loop when the response is a single JSON object `m` with key
list `fields`: iterating the mapping yields its keys, `model["name"]` on a
key (a `str`) raises `TypeError`, and the `except TypeError` branch tests
`project_models["name"] == name` and deletes `project_models.id` — once per
key. -/
def modelExistsSingle (pn n : String) (force : Bool) (m : RModel) :
    List String → List String × Except PzmmError Unit
  | [] => ([], .ok ())
  | _k :: rest =>
    if m.name = n then
      if force then
        let (ds, res) := modelExistsSingle pn n force m rest
        (m.id :: ds, res)
      else ([], .error (.valueErrorModelConflict pn))
    else modelExistsSingle pn n force m rest

/-- `model_exists(project, name, force)` (git_integration.py lines 160-203).
Resolves the project, lists its models (`shape` gives the response shape the
endpoint chose), and scans for a model named `name`.  Returns the ids passed
to `mr.delete_model`, in call order, and the result. -/
def model_exists (r : Remote) (shape : List RModel → ModelsResponse)
    (project n : String) (force : Bool) : List String × Except PzmmError Unit :=
  match getProject r (some project) with
  | none => ([], .error .typeErrorNoneSubscript)
  | some p =>
    match shape (modelsOf r p.id) with
    | .list ms => modelExistsList p.name n force ms
    | .single m fields => modelExistsSingle p.name n force m fields

/-- The local working tree under one `git_path`: which project directories
exist, and the model directories with their entries, keyed by
`(project_name, model_name)`. -/
structure LocalFS where
  projectDirs : List String
  modelDirs : List ((String × String) × Dir)

/-- The empty working tree. -/
def emptyFS : LocalFS := { projectDirs := [], modelDirs := [] }

def LocalFS.hasProjectDir (fs : LocalFS) (p : String) : Bool :=
  fs.projectDirs.contains p

def LocalFS.hasModelDir (fs : LocalFS) (p m : String) : Bool :=
  fs.modelDirs.any (fun e => decide (e.1 = (p, m)))

/-- `Path.mkdir(parents=True, exist_ok=True)` on `<git_path>/<p>`. -/
def LocalFS.mkProjectDir (fs : LocalFS) (p : String) : LocalFS :=
  if fs.hasProjectDir p then fs else { fs with projectDirs := fs.projectDirs ++ [p] }

/-- `Path.mkdir(parents=True, exist_ok=True)` on `<git_path>/<p>/<m>`. -/
def LocalFS.mkModelDir (fs : LocalFS) (p m : String) : LocalFS :=
  if fs.hasModelDir p m then fs
  else { fs with modelDirs := fs.modelDirs ++ [((p, m), [])] }

/-- Write a file into the model directory `(p, m)` (the source only writes
into directories it has just ensured exist). -/
def LocalFS.writeModelFile (fs : LocalFS) (p m name : String) (d : FData) : LocalFS :=
  { fs with
    modelDirs := fs.modelDirs.map (fun e =>
      if e.1 = (p, m) then (e.1, writeEntry name d e.2) else e) }

def LocalFS.getDir (fs : LocalFS) (p m : String) : Option Dir :=
  (fs.modelDirs.find? (fun e => decide (e.1 = (p, m)))).map (·.2)

/-- Replace the contents of the model directory `(p, m)`. -/
def LocalFS.setDir (fs : LocalFS) (p m : String) (d : Dir) : LocalFS :=
  { fs with
    modelDirs := fs.modelDirs.map (fun e => if e.1 = (p, m) then (e.1, d) else e) }

/-- The directory-ensuring branches of `get_zipped_model` (lines 91-115):
check the project folder, then the model folder, create what is missing,
and write the downloaded bytes to `<model_name>.zip` in the model folder
(all three branches end in the same write). -/
def gzmWriteZip (fs : LocalFS) (pn mn : String) (z : FData) : LocalFS :=
  if fs.hasProjectDir pn then
    if fs.hasModelDir pn mn then
      fs.writeModelFile pn mn (mn ++ ".zip") z
    else
      ((fs.mkModelDir pn mn).writeModelFile pn mn (mn ++ ".zip") z)
  else
    (((fs.mkProjectDir pn).mkModelDir pn mn).writeModelFile pn mn (mn ++ ".zip") z)

/-- The model argument of `get_zipped_model` / `pull_viya_model`: a
`RestObj` or a string (name or UUID). -/
inductive ModelArg where
  | obj : RModel → ModelArg
  | str : String → ModelArg

/-- The model-resolution part of `get_zipped_model` (lines 70-85): a
`RestObj` or UUID is refetched by id (`.id` on a `None` result raises
`AttributeError`); a bare name requires a truthy project reference
(else the `ValueError`), resolves the project (`.name` on a `None` result
raises `AttributeError`) and takes element `[0]` of
`mr.list_models(filter=and(eq(projectName, ...), eq(name, ...)))`
(`IndexError` when empty). -/
def gzmResolve (r : Remote) (model : ModelArg) (project : Option String) :
    Except PzmmError RModel :=
  match model with
  | .obj m =>
    match getModel r m.id with
    | some m1 => .ok m1
    | none => .error .attributeErrorNone
  | .str s =>
    if pyUUIDOk s then
      match getModel r s with
      | some m1 => .ok m1
      | none => .error .attributeErrorNone
    else
      if optFalsy project then .error .valueErrorNameNeedsProject
      else
        match getProject r project with
        | none => .error .attributeErrorNone
        | some p =>
          match r.models.filter (fun m => m.projectName == p.name && m.name == s) with
          | [] => .error .indexError
          | m :: _ => .ok m

/-- `get_zipped_model(model, git_path, project)` (lines 40-117): resolve the
model, download its packaged content (`GET models/{id}?format=zip`), ensure
the local directories, and write `<model_name>.zip`.  Returns the working
tree left behind, the ids downloaded, and `(model_name, project_name)`. -/
def get_zipped_model (r : Remote) (fs : LocalFS) (model : ModelArg)
    (project : Option String) :
    LocalFS × List String × Except PzmmError (String × String) :=
  match gzmResolve r model project with
  | .error e => (fs, [], .error e)
  | .ok m =>
    let fs1 := gzmWriteZip fs m.projectName m.name m.content
    (fs1, [m.id], .ok (m.name, m.projectName))

/-- Python `==` between a `str` and a `RestObj` (a dict): always `False`
(`str.__eq__` returns `NotImplemented`, and a dict never equals a string).
This is the comparison at git_integration.py line 258,
`if model["name"] == model:`, where the loop variable `model` has shadowed
the model-name argument, so both sides come from the same list element. -/
def pyStrEqObj (_s : String) (_m : RModel) : Bool := false

/-- The search loop of `pull_viya_model` (lines 255-268) for a list-shaped
response.  State: working tree, download log, the current `project_name`
variable, and `some model_name` once the loop has assigned it.  On a
"match" the loop calls `get_zipped_model(model.id, git_path, project_name)`
and rebinds both names; an exception escaping `get_zipped_model` propagates. -/
def pullSearchList (r : Remote) :
    LocalFS → List String → String → Option String → List RModel →
    LocalFS × List String × Except PzmmError (String × Option String)
  | fs, dls, pn, last, [] => (fs, dls, .ok (pn, last))
  | fs, dls, pn, last, m :: rest =>
    if pyStrEqObj m.name m then
      match get_zipped_model r fs (.str m.id) (some pn) with
      | (fs1, dls1, .ok (mn1, pn1)) => pullSearchList r fs1 (dls ++ dls1) pn1 (some mn1) rest
      | (fs1, dls1, .error e) => (fs1, dls ++ dls1, .error e)
    else pullSearchList r fs dls pn last rest

/-- The same loop for a single-object response `m` with key list `fields`:
iterating the mapping yields its keys, `model["name"]` on a key raises
`TypeError`, and the `except TypeError` branch (lines 263-268) compares
`project_models["name"] == model` — the model's name against the current
key string — and on a match downloads `project_models.id`. -/
def pullSearchSingle (r : Remote) (m : RModel) :
    LocalFS → List String → String → Option String → List String →
    LocalFS × List String × Except PzmmError (String × Option String)
  | fs, dls, pn, last, [] => (fs, dls, .ok (pn, last))
  | fs, dls, pn, last, k :: rest =>
    if m.name = k then
      match get_zipped_model r fs (.str m.id) (some pn) with
      | (fs1, dls1, .ok (mn1, pn1)) => pullSearchSingle r m fs1 (dls ++ dls1) pn1 (some mn1) rest
      | (fs1, dls1, .error e) => (fs1, dls ++ dls1, .error e)
    else pullSearchSingle r m fs dls pn last rest

/-- The `except ValueError` branch of `pull_viya_model` (lines 245-268):
resolve the project (the `SystemError` when `mr.get_project` returns
`None`), list its models, run the search loop, and report
`UnboundLocalError` (raised at the `model_path` line that follows) when the
loop never assigned `model_name`. -/
def pullExceptBranch (r : Remote) (fs : LocalFS) (dls : List String)
    (shape : List RModel → ModelsResponse) (project : Option String) :
    LocalFS × List String × Except PzmmError (String × String) :=
  match getProject r project with
  | none => (fs, dls, .error .systemErrorProjectRequired)
  | some p =>
    let step :=
      match shape (modelsOf r p.id) with
      | .list ms => pullSearchList r fs dls p.name none ms
      | .single m fields => pullSearchSingle r m fs dls p.name none fields
    match step with
    | (fs1, dls1, .error e) => (fs1, dls1, .error e)
    | (fs1, dls1, .ok (pn, some mn)) => (fs1, dls1, .ok (mn, pn))
    | (fs1, dls1, .ok (_, none)) => (fs1, dls1, .error .unboundLocalModelName)

/-- The `try` body of `pull_viya_model` (lines 237-242) once `model` holds
the id string: `mr.get_model(model).projectName` (`AttributeError` when the
model is unresolvable), then `get_zipped_model(model, git_path,
project_name)`. -/
def pullTryBody (r : Remote) (fs : LocalFS) (mid : String) :
    LocalFS × List String × Except PzmmError (String × String) :=
  match getModel r mid with
  | none => (fs, [], .error .attributeErrorNone)
  | some mm => get_zipped_model r fs (.str mid) (some mm.projectName)

/-- The unzip-and-clean tail of `pull_viya_model` (lines 270-280): open
`<model_path>/<model_name>.zip`, `extractall` into the directory
(overwriting entries with matching names), then unlink every `*.zip` entry. -/
def pullExtract (fs : LocalFS) (mn pn : String) : LocalFS × Except PzmmError Unit :=
  match fs.getDir pn mn with
  | none => (fs, .error .fileNotFoundMissingZip)
  | some d =>
    match lookupEntry d (mn ++ ".zip") with
    | none => (fs, .error .fileNotFoundMissingZip)
    | some (.bytes _) => (fs, .error .badZipFile)
    | some (.zip entries) =>
      let d1 := entries.foldl (fun acc e => writeEntry e.1 e.2 acc) d
      let d2 := d1.filter (fun e => !endsWithZip e.1)
      (fs.setDir pn mn d2, .ok ())

/-- The resolve-and-download phase of `pull_viya_model`: the `try` body,
with any `ValueError` it raises (the `UUID(model)` parse failure for a
non-UUID string, or a `ValueError` escaping `get_zipped_model`) routed
into the `except ValueError` search branch. -/
def pullPhase1 (r : Remote) (fs : LocalFS) (model : ModelArg)
    (project : Option String) (shape : List RModel → ModelsResponse) :
    LocalFS × List String × Except PzmmError (String × String) :=
  match model with
  | .obj m =>
    match pullTryBody r fs m.id with
    | (fs1, dls, .error .valueErrorNameNeedsProject) =>
      pullExceptBranch r fs1 dls shape project
    | other => other
  | .str s =>
    if pyUUIDOk s then
      match pullTryBody r fs s with
      | (fs1, dls, .error .valueErrorNameNeedsProject) =>
        pullExceptBranch r fs1 dls shape project
      | other => other
    else pullExceptBranch r fs [] shape project

/-- `GitIntegrate.pull_viya_model(model, git_path, project)` (lines
206-280): the resolve-and-download phase followed by the unzip-and-clean
tail.  On success the result carries the final
`(model_name, project_name)` locals, which name the affected model
directory. -/
def pull_viya_model (r : Remote) (fs : LocalFS) (model : ModelArg)
    (project : Option String) (shape : List RModel → ModelsResponse) :
    LocalFS × List String × Except PzmmError (String × String) :=
  match pullPhase1 r fs model project shape with
  | (fs1, dls, .error e) => (fs1, dls, .error e)
  | (fs1, dls, .ok (mn, pn)) =>
    match pullExtract fs1 mn pn with
    | (fs2, .ok ()) => (fs2, dls, .ok (mn, pn))
    | (fs2, .error e) => (fs2, dls, .error e)

/-- The name arguments of `push_git_model`: which of `model_name` and
`project_name` were passed.  When both are `None` the source uses
`git_path` itself as the model directory, taking its base name as the
model name and its parent's base name as the project name (`neither
parentName dirName`). -/
inductive PushNames where
  | both : String → String → PushNames
  | onlyModel : String → PushNames
  | onlyProject : String → PushNames
  | neither : String → String → PushNames

/-- The remote half of the push body (lines 318-330): read the archive back
(`io.BytesIO` of the file just written), resolve the project
(`project_exists`, auto-creating with fresh id `freshPid`), clear any
same-named remote model (`model_exists` with `force=True`), and
`mr.import_model_from_zip` the archive as a new remote model with fresh id
`freshMid`. -/
def pushRemote (r : Remote) (pn mn : String) (archive : List (String × FData))
    (shape : List RModel → ModelsResponse) (freshPid freshMid : String) :
    Remote × Except PzmmError Unit :=
  match project_exists r (getProject r (some pn)) pn freshPid with
  | (r1, .error e) => (r1, .error e)
  | (r1, .ok project) =>
    match model_exists r1 shape project.name mn true with
    | (ds, .error e) => (applyDeletes r1 ds, .error e)
    | (ds, .ok ()) =>
      let r2 := applyDeletes r1 ds
      let newM : RModel :=
        { id := freshMid, name := mn, projectId := project.id,
          projectName := project.name, content := .zip archive }
      ({ r2 with models := r2.models ++ [newM] }, .ok ())

/-- The body of `push_git_model` once the model directory and both names
are determined (lines 309-330): delete every `*.zip` entry, collect the
remaining entries sorted by name, pack them into `<model_dir.name>.zip`
(each entry under its base name, written into the directory), then hand the
archive to the remote half.  Returns the remote state, the directory
contents left behind, and the result.  Note the archive written into the
directory is never deleted afterwards. -/
def pushCore (r : Remote) (dir : Dir) (pn mn _pv : String)
    (shape : List RModel → ModelsResponse) (freshPid freshMid : String) :
    Remote × Dir × Except PzmmError Unit :=
  let dir1 := dir.filter (fun e => !endsWithZip e.1)
  let archive := sortByName dir1
  let dir2 := writeEntry (mn ++ ".zip") (.zip archive) dir1
  let rr := pushRemote r pn mn archive shape freshPid freshMid
  (rr.1, dir2, rr.2)

/-- `GitIntegrate.push_git_model(git_path, model_name, project_name,
project_version)` (lines 282-330).  `dir` is the contents of the model
directory the computed path points at.  When exactly one name is `None`,
`project_name + "/" + model_name` raises `TypeError` before any file or
remote operation. -/
def push_git_model (r : Remote) (dir : Dir) (names : PushNames) (pv : String)
    (shape : List RModel → ModelsResponse) (freshPid freshMid : String) :
    Remote × Dir × Except PzmmError Unit :=
  match names with
  | .onlyModel _ => (r, dir, .error .typeErrorNoneConcat)
  | .onlyProject _ => (r, dir, .error .typeErrorNoneConcat)
  | .both pn mn => pushCore r dir pn mn pv shape freshPid freshMid
  | .neither parentName dirName => pushCore r dir parentName dirName pv shape freshPid freshMid

/-- The per-model loop of `pull_mm_project` (lines 453-458): ensure the
model subdirectory exists, then `pull_viya_model(model_id, ...)` with no
project argument; an exception from a pull propagates. -/
def pullMMLoop (r : Remote) (shape : List RModel → ModelsResponse) (pn : String) :
    LocalFS → List String → List (String × String) →
    LocalFS × List String × Except PzmmError Unit
  | fs, dls, [] => (fs, dls, .ok ())
  | fs, dls, (name, mid) :: rest =>
    let fs1 := fs.mkModelDir pn name
    match pull_viya_model r fs1 (.str mid) none shape with
    | (fs2, dls2, .ok _) => pullMMLoop r shape pn fs2 (dls ++ dls2) rest
    | (fs2, dls2, .error e) => (fs2, dls ++ dls2, .error e)

/-- `GitIntegrate.pull_mm_project(git_path, project)` (lines 415-458):
resolve the project (auto-create with fresh id `freshPid` when the
reference is an unknown name), ensure the local project directory exists,
list the project's models (`FileNotFoundError` when the response is
falsy), then pull each listed model.  Iterating a single-object response
builds the name/id lists from the mapping's keys, and `.name` on a key
string raises `AttributeError`. -/
def pull_mm_project (r : Remote) (fs : LocalFS) (project : String)
    (freshPid : String) (shape : List RModel → ModelsResponse) :
    Remote × LocalFS × List String × Except PzmmError Unit :=
  match project_exists r (getProject r (some project)) project freshPid with
  | (r1, .error e) => (r1, fs, [], .error e)
  | (r1, .ok p) =>
    let fs1 := fs.mkProjectDir p.name
    let mresp := shape (modelsOf r1 p.id)
    if mresp.falsy then (r1, fs1, [], .error .fileNotFoundNoModels)
    else
      match mresp with
      | .list ms =>
        let (fs2, dls, res) :=
          pullMMLoop r1 shape p.name fs1 [] (ms.map (fun m => (m.name, m.id)))
        (r1, fs2, dls, res)
      | .single _ _ => (r1, fs1, [], .error .attributeErrorNone)

/-- A sample remote model used by concrete witnesses: a valid-UUID id, name
"m", in project "P" (id "p1"), whose packaged content is a one-file archive. -/
def sampleModel : RModel :=
  { id := "0123456789abcdef0123456789abcdef", name := "m", projectId := "p1",
    projectName := "P", content := .zip [("score.py", .bytes [1, 2])] }

/-- A sample remote state holding project "P" with the one model `sampleModel`. -/
def sampleRemote : Remote :=
  { projects := [{ id := "p1", name := "P" }], models := [sampleModel] }

/-- A sample remote state holding project "P" with no models. -/
def emptyProjRemote : Remote :=
  { projects := [{ id := "p1", name := "P" }], models := [] }

example : pyUUIDOk "0123456789abcdef0123456789abcdef" = true := by decide
example : pyUUIDOk "12345678-1234-1234-1234-123456789abc" = true := by decide
example : pyUUIDOk "myModel" = false := by decide
example : pyUUIDOk "DecisionTree" = false := by decide

/-! ### Basic lemmas about directories, archives and sorting -/

theorem isPrefixOf_append {α : Type} [BEq α] [LawfulBEq α] (l t : List α) :
    l.isPrefixOf (l ++ t) = true := by
  induction l with
  | nil => simp [List.isPrefixOf]
  | cons a as ih => simp [List.isPrefixOf, ih]

theorem string_data_append (s t : String) : (s ++ t).data = s.data ++ t.data := by
  cases s; cases t; rfl

theorem endsWithZip_append (s : String) : endsWithZip (s ++ ".zip") = true := by
  simp [endsWithZip, List.isSuffixOf, string_data_append, List.reverse_append,
    isPrefixOf_append]

theorem noZips_filter (d : Dir) : noZips (d.filter (fun e => !endsWithZip e.1)) = true := by
  simp only [noZips, List.all_eq_true]
  intro e he
  exact (List.mem_filter.mp he).2

theorem filter_strip_eq_self (d : Dir) (h : ∀ e ∈ d, endsWithZip e.1 = false) :
    d.filter (fun e => !endsWithZip e.1) = d := by
  rw [List.filter_eq_self]
  intro e he
  simp [h e he]

theorem lookupEntry_writeEntry_self (n : String) (v : FData) :
    ∀ d : Dir, lookupEntry (writeEntry n v d) n = some v
  | [] => by simp [writeEntry, lookupEntry, List.find?]
  | (n0, d0) :: rest => by
    by_cases h : n0 = n
    · simp [writeEntry, h, lookupEntry, List.find?]
    · have ih := lookupEntry_writeEntry_self n v rest
      simp only [writeEntry, if_neg h, lookupEntry, List.find?, decide_eq_true_eq,
        if_neg h] at ih ⊢
      simpa [h] using ih

theorem writeEntry_fresh (n : String) (v : FData) :
    ∀ d : Dir, hasName d n = false → writeEntry n v d = d ++ [(n, v)]
  | [], _ => rfl
  | (n0, d0) :: rest, h => by
    simp only [hasName, List.any_cons, Bool.or_eq_false_iff, decide_eq_false_iff_not] at h
    obtain ⟨h1, h2⟩ := h
    simp only [writeEntry, if_neg h1, List.cons_append, List.cons.injEq, true_and]
    exact writeEntry_fresh n v rest h2

theorem hasName_append (d1 d2 : Dir) (n : String) :
    hasName (d1 ++ d2) n = (hasName d1 n || hasName d2 n) := by
  simp [hasName, List.any_append]

theorem foldl_writeEntry_fresh :
    ∀ (entries : List (String × FData)) (start : Dir),
      (∀ e ∈ entries, hasName start e.1 = false) →
      (entries.map Prod.fst).Nodup →
      entries.foldl (fun acc e => writeEntry e.1 e.2 acc) start = start ++ entries
  | [], start, _, _ => by simp
  | e :: rest, start, hfresh, hnd => by
    have h0 : hasName start e.1 = false := hfresh e (by simp)
    rw [List.foldl_cons, writeEntry_fresh e.1 e.2 start h0]
    have hnd2 : (rest.map Prod.fst).Nodup := by
      simpa using (List.nodup_cons.mp (by simpa using hnd)).2
    have hne : ∀ f ∈ rest, ¬ (f.1 = e.1) := by
      intro f hf hfe
      have hmem : e.1 ∈ rest.map Prod.fst := by
        exact List.mem_map.mpr ⟨f, hf, hfe⟩
      exact (List.nodup_cons.mp (by simpa using hnd)).1 hmem
    have hfresh2 : ∀ f ∈ rest, hasName (start ++ [e]) f.1 = false := by
      intro f hf
      rw [hasName_append, Bool.or_eq_false_iff]
      refine ⟨hfresh f (List.mem_cons_of_mem _ hf), ?_⟩
      simp only [hasName, List.any_cons, List.any_nil, Bool.or_false,
        decide_eq_false_iff_not]
      exact fun hfe => (hne f hf) hfe.symm
    rw [foldl_writeEntry_fresh rest (start ++ [e]) hfresh2 hnd2]
    simp

theorem insertSorted_perm (x : String × FData) :
    ∀ l, (insertSorted x l).Perm (x :: l)
  | [] => List.Perm.refl _
  | y :: ys => by
    unfold insertSorted
    by_cases h : nameLe x.1 y.1 = true
    · rw [if_pos h]
    · rw [if_neg h]
      exact ((insertSorted_perm x ys).cons y).trans (List.Perm.swap x y ys)

theorem sortByName_perm (l : List (String × FData)) : (sortByName l).Perm l := by
  induction l with
  | nil => exact List.Perm.refl _
  | cons x xs ih =>
    exact (insertSorted_perm x (sortByName xs)).trans (ih.cons x)

theorem nameLe_total (a b : String) (h : nameLe a b = false) : nameLe b a = true := by
  simp [nameLe] at h ⊢
  exact le_of_lt h

theorem nameLe_trans (a b c : String) (h1 : nameLe a b = true) (h2 : nameLe b c = true) :
    nameLe a c = true := by
  simp [nameLe] at h1 h2 ⊢
  exact le_trans h1 h2

theorem insertSorted_pairwise (x : String × FData) :
    ∀ l, List.Pairwise (fun a b => nameLe a.1 b.1 = true) l →
      List.Pairwise (fun a b => nameLe a.1 b.1 = true) (insertSorted x l)
  | [], _ => List.Pairwise.cons (by simp) List.Pairwise.nil
  | y :: ys, h => by
    rcases List.pairwise_cons.mp h with ⟨hy, hys⟩
    by_cases hxy : nameLe x.1 y.1 = true
    · simp only [insertSorted, hxy, if_true]
      refine List.pairwise_cons.mpr ⟨?_, h⟩
      intro b hb
      rcases List.mem_cons.mp hb with hb | hb
      · rw [hb]; exact hxy
      · exact nameLe_trans _ _ _ hxy (hy b hb)
    · simp only [insertSorted, hxy, if_false]
      refine List.pairwise_cons.mpr ⟨?_, insertSorted_pairwise x ys hys⟩
      intro b hb
      have hb2 := (insertSorted_perm x ys).mem_iff.mp hb
      rcases List.mem_cons.mp hb2 with hb2 | hb2
      · rw [hb2]
        exact nameLe_total _ _ (Bool.eq_false_iff.mpr hxy)
      · exact hy b hb2

theorem sortByName_pairwise (l : List (String × FData)) :
    List.Pairwise (fun a b => nameLe a.1 b.1 = true) (sortByName l) := by
  induction l with
  | nil => exact List.Pairwise.nil
  | cons x xs ih => exact insertSorted_pairwise x (sortByName xs) ih

/-! ### Lemmas about the working tree and the two halves of claim C2 -/

theorem find?_map_set (p m : String) (d : Dir) :
    ∀ l : List ((String × String) × Dir),
      (l.find? (fun e => decide (e.1 = (p, m)))).isSome = true →
      (l.map (fun e => if e.1 = (p, m) then (e.1, d) else e)).find?
          (fun e => decide (e.1 = (p, m))) = some ((p, m), d)
  | [], h => by simp [List.find?] at h
  | e :: rest, h => by
    by_cases he : e.1 = (p, m)
    · simp [List.find?, he]
    · rw [List.map_cons, if_neg he]
      rw [List.find?_cons_of_neg _ (by simp [he])]
      rw [List.find?_cons_of_neg _ (by simp [he])] at h
      exact find?_map_set p m d rest h

theorem getDir_setDir (fs : LocalFS) (p m : String) (d0 d : Dir)
    (h : fs.getDir p m = some d0) : (fs.setDir p m d).getDir p m = some d := by
  unfold LocalFS.getDir at h
  unfold LocalFS.getDir LocalFS.setDir
  have hsome : (fs.modelDirs.find? (fun e => decide (e.1 = (p, m)))).isSome = true := by
    rcases hf : fs.modelDirs.find? (fun e => decide (e.1 = (p, m))) with _ | e
    · rw [hf] at h; simp at h
    · rw [hf]; rfl
  rw [find?_map_set p m d fs.modelDirs hsome]
  rfl

theorem pullExtract_ok (fs fs2 : LocalFS) (mn pn : String)
    (h : pullExtract fs mn pn = (fs2, .ok ())) :
    ∃ d, fs2.getDir pn mn = some d ∧ noZips d = true := by
  unfold pullExtract at h
  rcases hd : fs.getDir pn mn with _ | d
  · rw [hd] at h; simp at h
  · rw [hd] at h
    dsimp only at h
    rcases hl : lookupEntry d (mn ++ ".zip") with _ | fd
    · rw [hl] at h; simp at h
    · rw [hl] at h
      cases fd with
      | bytes bs => simp at h
      | zip entries =>
        simp only [Prod.mk.injEq] at h
        rw [← h.1]
        exact ⟨_, getDir_setDir fs pn mn d _ hd, noZips_filter _⟩

theorem pull_cleanup (r : Remote) (fs fs2 : LocalFS) (model : ModelArg)
    (project : Option String) (shape : List RModel → ModelsResponse)
    (dls : List String) (mn pn : String)
    (h : pull_viya_model r fs model project shape = (fs2, dls, .ok (mn, pn))) :
    ∃ d, fs2.getDir pn mn = some d ∧ noZips d = true := by
  unfold pull_viya_model at h
  rcases h1 : pullPhase1 r fs model project shape with ⟨fs1, dls1, res⟩
  rw [h1] at h
  cases res with
  | error e => simp at h
  | ok v =>
    rcases v with ⟨mn0, pn0⟩
    dsimp only at h
    rcases h2 : pullExtract fs1 mn0 pn0 with ⟨fs3, res2⟩
    rw [h2] at h
    cases res2 with
    | error e => simp at h
    | ok u =>
      cases u
      simp only [Prod.mk.injEq, Except.ok.injEq] at h
      obtain ⟨hfs, -, hmn, hpn⟩ := h
      subst hfs; subst hmn; subst hpn
      exact pullExtract_ok fs1 fs3 mn0 pn0 h2

theorem hasName_filter_zip (d : Dir) (n : String) (hz : endsWithZip n = true) :
    hasName (d.filter (fun e => !endsWithZip e.1)) n = false := by
  rw [Bool.eq_false_iff]
  intro hcontra
  simp only [hasName, List.any_eq_true, decide_eq_true_eq] at hcontra
  obtain ⟨e, he, hen⟩ := hcontra
  have h2 := (List.mem_filter.mp he).2
  rw [hen, hz] at h2
  simp at h2

theorem filter_zip_of_strip (d : Dir) :
    (d.filter (fun e => !endsWithZip e.1)).filter (fun e => endsWithZip e.1) = [] := by
  rw [List.filter_eq_nil_iff]
  intro e he
  have h2 := (List.mem_filter.mp he).2
  simp only [Bool.not_eq_true'] at h2
  simp [h2]

theorem push_zip_entries (r : Remote) (dir : Dir) (pn mn pv : String)
    (shape : List RModel → ModelsResponse) (fp fm : String) :
    zipEntries (push_git_model r dir (.both pn mn) pv shape fp fm).2.1 =
      [(mn ++ ".zip",
        FData.zip (sortByName (dir.filter (fun e => !endsWithZip e.1))))] := by
  show zipEntries (pushCore r dir pn mn pv shape fp fm).2.1 = _
  simp only [pushCore]
  have hfresh : hasName (dir.filter (fun e => !endsWithZip e.1)) (mn ++ ".zip") = false :=
    hasName_filter_zip _ _ (endsWithZip_append mn)
  rw [writeEntry_fresh _ _ _ hfresh]
  unfold zipEntries
  rw [List.filter_append, filter_zip_of_strip]
  simp [endsWithZip_append]

theorem hasProjectDir_mk (fs : LocalFS) (p : String) :
    (fs.mkProjectDir p).hasProjectDir p = true := by
  unfold LocalFS.mkProjectDir
  by_cases h : fs.hasProjectDir p = true
  · rw [if_pos h]; exact h
  · rw [if_neg h]
    unfold LocalFS.hasProjectDir
    simp [List.contains, List.elem_iff]

/-! ### Lemmas about the model-existence resolver -/

theorem countP_zero_nomatch {α : Type} (p : α → Bool) (l : List α)
    (h : l.countP p = 0) : ∀ a ∈ l, ¬ p a = true := by
  intro a ha hpa
  have hpos := List.countP_pos_iff.mpr ⟨a, ha, hpa⟩
  omega

theorem countP_one_unique {α : Type} (p : α → Bool) :
    ∀ l : List α, l.countP p = 1 → ∀ a ∈ l, p a = true → ∀ b ∈ l, p b = true → a = b
  | [], h, a, ha, _, _, _, _ => by simp at ha
  | x :: rest, h, a, ha, hpa, b, hb, hpb => by
    rw [List.countP_cons] at h
    by_cases hx : p x = true
    · have hz : rest.countP p = 0 := by
        have hif : (if p x = true then 1 else 0) = 1 := by simp [hx]
        rw [hif] at h
        omega
      have hnone := countP_zero_nomatch p rest hz
      have ha2 : a = x := by
        rcases List.mem_cons.mp ha with h1 | h1
        · exact h1
        · exact absurd hpa (hnone a h1)
      have hb2 : b = x := by
        rcases List.mem_cons.mp hb with h1 | h1
        · exact h1
        · exact absurd hpb (hnone b h1)
      rw [ha2, hb2]
    · have hone : rest.countP p = 1 := by
        have hif : (if p x = true then 1 else 0) = 0 := by simp [hx]
        rw [hif] at h
        omega
      have ha2 : a ∈ rest := by
        rcases List.mem_cons.mp ha with h1 | h1
        · exact absurd (h1 ▸ hpa) hx
        · exact h1
      have hb2 : b ∈ rest := by
        rcases List.mem_cons.mp hb with h1 | h1
        · exact absurd (h1 ▸ hpb) hx
        · exact h1
      exact countP_one_unique p rest hone a ha2 hpa b hb2 hpb

theorem modelExistsList_conflict (pn n : String) :
    ∀ ms : List RModel, (∃ m ∈ ms, m.name = n) →
      modelExistsList pn n false ms = ([], .error (.valueErrorModelConflict pn))
  | [], h => by simp at h
  | m :: rest, h => by
    by_cases hm : m.name = n
    · simp [modelExistsList, hm]
    · have h2 : ∃ m0 ∈ rest, m0.name = n := by
        rcases h with ⟨m0, hmem, hname⟩
        rcases List.mem_cons.mp hmem with heq | hmem2
        · exact absurd (heq ▸ hname) hm
        · exact ⟨m0, hmem2, hname⟩
      simp only [modelExistsList, if_neg hm]
      exact modelExistsList_conflict pn n rest h2

theorem modelExistsList_nomatch (pn n : String) (force : Bool) :
    ∀ ms : List RModel, (∀ m ∈ ms, ¬ m.name = n) →
      modelExistsList pn n force ms = ([], .ok ())
  | [], _ => rfl
  | m :: rest, h => by
    simp only [modelExistsList, if_neg (h m (by simp))]
    exact modelExistsList_nomatch pn n force rest
      (fun m0 hm0 => h m0 (List.mem_cons_of_mem _ hm0))

theorem modelExistsList_unique (pn n : String) :
    ∀ (ms : List RModel) (m0 : RModel), m0 ∈ ms → m0.name = n →
      ms.countP (fun m => decide (m.name = n)) = 1 →
      modelExistsList pn n true ms = ([m0.id], .ok ())
  | [], m0, hmem, _, _ => by simp at hmem
  | m :: rest, m0, hmem, hname, hcount => by
    by_cases hm : m.name = n
    · have hrest : rest.countP (fun m => decide (m.name = n)) = 0 := by
        rw [List.countP_cons] at hcount
        simp only [hm, decide_True, if_true] at hcount
        omega
      have hnone := countP_zero_nomatch _ rest hrest
      have hm0 : m0 = m := by
        rcases List.mem_cons.mp hmem with heq | hmem2
        · exact heq
        · exact absurd (decide_eq_true hname) (hnone m0 hmem2)
      have hrest2 : ∀ m1 ∈ rest, ¬ m1.name = n := by
        intro m1 hm1 hname1
        exact (hnone m1 hm1) (decide_eq_true hname1)
      subst hm0
      simp [modelExistsList, hm, modelExistsList_nomatch pn n true rest hrest2]
    · have hmem2 : m0 ∈ rest := by
        rcases List.mem_cons.mp hmem with heq | h2
        · exact absurd (heq ▸ hname) hm
        · exact h2
      have hcount2 : rest.countP (fun m => decide (m.name = n)) = 1 := by
        rw [List.countP_cons] at hcount
        simp [hm] at hcount
        omega
      simp only [modelExistsList, if_neg hm]
      exact modelExistsList_unique pn n rest m0 hmem2 hname hcount2

theorem modelExistsSingle_nomatch (pn n : String) (force : Bool) (m : RModel)
    (h : ¬ m.name = n) :
    ∀ fields, modelExistsSingle pn n force m fields = ([], .ok ())
  | [] => rfl
  | _ :: rest => by
    simp only [modelExistsSingle, if_neg h]
    exact modelExistsSingle_nomatch pn n force m h rest

theorem modelExistsSingle_force (pn n : String) (m : RModel) (h : m.name = n) :
    ∀ fields, modelExistsSingle pn n true m fields = (fields.map (fun _ => m.id), .ok ())
  | [] => rfl
  | _ :: rest => by
    simp only [modelExistsSingle, if_pos h, if_pos rfl,
      modelExistsSingle_force pn n m h rest]
    rfl

theorem modelExistsSingle_conflict (pn n : String) (m : RModel) (h : m.name = n)
    (k : String) (rest : List String) :
    modelExistsSingle pn n false m (k :: rest) =
      ([], .error (.valueErrorModelConflict pn)) := by
  simp [modelExistsSingle, h]

/-! ### Claim theorems -/

/-- Claim C6: for every failed project lookup, `project_exists` auto-creates a
project only for plain-name references — a reference that parses as a valid
UUID fails with the `SystemError` (the spec's `NotFoundError`) and creates
nothing, while a plain name appends exactly one new remote project with that
name and returns it; a successful lookup is returned unchanged. -/
theorem C6_project_exists_autocreate (r : Remote) (ref fid : String) (p : RProject) :
    project_exists r (some p) ref fid = (r, .ok p) ∧
    (pyUUIDOk ref = true →
      project_exists r none ref fid = (r, .error .systemErrorUUIDNotFound)) ∧
    (pyUUIDOk ref = false →
      project_exists r none ref fid =
        ({ r with projects := r.projects ++ [{ id := fid, name := ref }] },
          .ok { id := fid, name := ref })) := by
  refine ⟨rfl, ?_, ?_⟩ <;> intro h <;> simp [project_exists, h]

/-- Witness for C6 at concrete inputs: a plain name creates exactly one
project; a dangling valid UUID fails and creates nothing. -/
theorem C6_project_exists_autocreate_witness :
    project_exists sampleRemote none "myModel" "p9" =
      ({ sampleRemote with
          projects := sampleRemote.projects ++ [{ id := "p9", name := "myModel" }] },
        .ok { id := "p9", name := "myModel" }) ∧
    project_exists sampleRemote none "12345678-1234-1234-1234-123456789abc" "p9" =
      (sampleRemote, .error .systemErrorUUIDNotFound) :=
  ⟨(C6_project_exists_autocreate sampleRemote "myModel" "p9"
      { id := "x", name := "x" }).2.2 (by decide),
    (C6_project_exists_autocreate sampleRemote "12345678-1234-1234-1234-123456789abc"
      "p9" { id := "x", name := "x" }).2.1 (by decide)⟩

/-- Claim C7: a single-model pull invoked with a bare model name (not a UUID
and not a `RestObj`) and no project reference fails with the spec's
`InvalidArgumentError` (the `SystemError` raise at lines 248-251) before
downloading anything or touching the working tree: the returned tree equals
the input tree and the download log is empty. -/
theorem C7_bare_name_without_project (r : Remote) (fs : LocalFS) (s : String)
    (shape : List RModel → ModelsResponse) (h : pyUUIDOk s = false) :
    pull_viya_model r fs (.str s) none shape =
      (fs, [], .error .systemErrorProjectRequired) ∧
    isInvalidArgumentError .systemErrorProjectRequired = true := by
  refine ⟨?_, rfl⟩
  unfold pull_viya_model pullPhase1
  dsimp only
  rw [h]
  simp [pullExceptBranch, getProject]

/-- Witness for C7 at a concrete bare name. -/
theorem C7_bare_name_without_project_witness :
    pull_viya_model sampleRemote emptyFS (.str "myModel") none
      (fun ms => ModelsResponse.list ms) =
      (emptyFS, [], .error .systemErrorProjectRequired) ∧
    isInvalidArgumentError .systemErrorProjectRequired = true :=
  C7_bare_name_without_project sampleRemote emptyFS "myModel"
    (fun ms => ModelsResponse.list ms) (by decide)

/-- Claim C9: pulling a project whose remote model list is empty fails with
the `FileNotFoundError`, and at the moment of failure the local project
directory exists — it is created before the model listing is checked. -/
theorem C9_empty_project_pull (r : Remote) (fs : LocalFS) (ref fid : String)
    (shape : List RModel → ModelsResponse) (p : RProject)
    (hp : getProject r (some ref) = some p)
    (hms : modelsOf r p.id = [])
    (hsh : shape [] = .list []) :
    pull_mm_project r fs ref fid shape =
      (r, fs.mkProjectDir p.name, [], .error .fileNotFoundNoModels) ∧
    (fs.mkProjectDir p.name).hasProjectDir p.name = true := by
  refine ⟨?_, hasProjectDir_mk fs p.name⟩
  unfold pull_mm_project
  rw [hp]
  simp [project_exists, hms, hsh, ModelsResponse.falsy]

/-- Witness for C9: an existing project with zero models. -/
theorem C9_empty_project_pull_witness :
    pull_mm_project emptyProjRemote emptyFS "P" "p9"
      (fun ms => ModelsResponse.list ms) =
      (emptyProjRemote, emptyFS.mkProjectDir "P", [], .error .fileNotFoundNoModels) ∧
    (emptyFS.mkProjectDir "P").hasProjectDir "P" = true :=
  C9_empty_project_pull emptyProjRemote emptyFS "P" "p9"
    (fun ms => ModelsResponse.list ms) { id := "p1", name := "P" } rfl rfl rfl

/-- Claim C10: `push_git_model` with exactly one of `model_name` and
`project_name` set to `None` fails with the `TypeError` raised by
`project_name + "/" + model_name` before deleting any file, creating any
archive, or contacting the remote service — the directory contents and the
remote state are returned unchanged. -/
theorem C10_half_named_push (r : Remote) (dir : Dir) (mn pn pv : String)
    (shape : List RModel → ModelsResponse) (fp fm : String) :
    push_git_model r dir (.onlyModel mn) pv shape fp fm =
      (r, dir, .error .typeErrorNoneConcat) ∧
    push_git_model r dir (.onlyProject pn) pv shape fp fm =
      (r, dir, .error .typeErrorNoneConcat) :=
  ⟨rfl, rfl⟩

/-- Claim C1 (code bug): with a bare model name "m", a resolvable project "P",
and a model named "m" in that project's list response, `pull_viya_model` does
not download that model's content: the search loop at lines 255-268 compares
`model["name"]` against the shadowed loop variable `model` itself instead of
the requested name, no iteration matches, and the call fails with
`UnboundLocalError` having downloaded nothing and left the tree untouched. -/
theorem C1_shadowed_name_search :
    pull_viya_model sampleRemote emptyFS (.str "m") (some "P")
      (fun ms => ModelsResponse.list ms) =
      (emptyFS, [], .error .unboundLocalModelName) := by rfl

/-- Claim C8: the archive built by a push is stored as `<model_name>.zip` in
the model directory and holds one entry per remaining (post-zip-deletion)
top-level file — the sorted entry list is a permutation of those files — in
ascending file-name order, each entry under the file's base name. -/
theorem C8_archive_layout (r : Remote) (dir : Dir) (pn mn pv : String)
    (shape : List RModel → ModelsResponse) (fp fm : String) :
    lookupEntry (push_git_model r dir (.both pn mn) pv shape fp fm).2.1
        (mn ++ ".zip") =
      some (.zip (sortByName (dir.filter (fun e => !endsWithZip e.1)))) ∧
    (sortByName (dir.filter (fun e => !endsWithZip e.1))).Perm
      (dir.filter (fun e => !endsWithZip e.1)) ∧
    List.Pairwise (fun a b => nameLe a.1 b.1 = true)
      (sortByName (dir.filter (fun e => !endsWithZip e.1))) := by
  refine ⟨?_, sortByName_perm _, sortByName_pairwise _⟩
  show lookupEntry (pushCore r dir pn mn pv shape fp fm).2.1 _ = _
  simp only [pushCore]
  exact lookupEntry_writeEntry_self _ _ _

/-- Claim C2 (amended): after every completed single-model pull, the affected
model directory — the one named by the final `(model_name, project_name)`
pair — contains no `*.zip` entry; after every single-model push, the model
directory contains exactly one `*.zip` entry, namely the archive
`<model_name>.zip` the push itself wrote (pre-existing `*.zip` files are
deleted at the start of the push, but the fresh archive is left behind
rather than deleted as the claim states). -/
theorem C2_archive_cleanup :
    (∀ (r : Remote) (fs fs2 : LocalFS) (model : ModelArg) (project : Option String)
        (shape : List RModel → ModelsResponse) (dls : List String) (mn pn : String),
      pull_viya_model r fs model project shape = (fs2, dls, .ok (mn, pn)) →
      ∃ d, fs2.getDir pn mn = some d ∧ noZips d = true) ∧
    (∀ (r : Remote) (dir : Dir) (pn mn pv : String)
        (shape : List RModel → ModelsResponse) (fp fm : String),
      zipEntries (push_git_model r dir (.both pn mn) pv shape fp fm).2.1 =
        [(mn ++ ".zip",
          FData.zip (sortByName (dir.filter (fun e => !endsWithZip e.1))))]) :=
  ⟨pull_cleanup, push_zip_entries⟩

/-- Witness for C2 at concrete inputs: a completed pull leaves a zip-free
model directory; a push leaves exactly its own archive behind. -/
theorem C2_archive_cleanup_witness :
    (∃ d, (pull_viya_model sampleRemote emptyFS
        (.str "0123456789abcdef0123456789abcdef") none
        (fun ms => ModelsResponse.list ms)).1.getDir "P" "m" = some d ∧
      noZips d = true) ∧
    zipEntries (push_git_model { projects := [], models := [] }
        [("a.txt", FData.bytes [1])] (.both "P" "m") "latest"
        (fun ms => ModelsResponse.list ms) "p9" "m9").2.1 =
      [("m" ++ ".zip",
        FData.zip (sortByName ([("a.txt", FData.bytes [1])].filter
          (fun e => !endsWithZip e.1))))] :=
  ⟨C2_archive_cleanup.1 sampleRemote emptyFS
      (pull_viya_model sampleRemote emptyFS
        (.str "0123456789abcdef0123456789abcdef") none
        (fun ms => ModelsResponse.list ms)).1
      (.str "0123456789abcdef0123456789abcdef") none
      (fun ms => ModelsResponse.list ms)
      (pull_viya_model sampleRemote emptyFS
        (.str "0123456789abcdef0123456789abcdef") none
        (fun ms => ModelsResponse.list ms)).2.1 "m" "P" (by rfl),
    C2_archive_cleanup.2 { projects := [], models := [] }
      [("a.txt", FData.bytes [1])] "P" "m" "latest"
      (fun ms => ModelsResponse.list ms) "p9" "m9"⟩

/-- Counterexample to C2 as stated: a completed push (result `ok`) leaves a
`*.zip` file — the archive "m.zip" it built — in the model directory. -/
theorem C2_push_leaves_archive_counterexample :
    (push_git_model { projects := [], models := [] } [("a.txt", FData.bytes [1])]
        (.both "P" "m") "latest" (fun ms => ModelsResponse.list ms) "p9" "m9").2.2 =
      .ok () ∧
    noZips (push_git_model { projects := [], models := [] }
        [("a.txt", FData.bytes [1])] (.both "P" "m") "latest"
        (fun ms => ModelsResponse.list ms) "p9" "m9").2.1 = false := by
  exact ⟨rfl, rfl⟩

/-- The remaining-model count after a forced overwrite: with the duplicate
name unique in the listing, deleting the matched id and importing the new
model leaves exactly one model of that name. -/
theorem count_after_forced (ms : List RModel) (m0 newM : RModel) (n : String)
    (hm0 : m0 ∈ ms) (hname : m0.name = n)
    (hcount : ms.countP (fun m => decide (m.name = n)) = 1)
    (hnew : newM.name = n) :
    ((ms.filter (fun m => !(([m0.id] : List String).contains m.id))) ++ [newM]).countP
      (fun m => decide (m.name = n)) = 1 := by
  rw [List.countP_append]
  have h1 : (ms.filter (fun m => !(([m0.id] : List String).contains m.id))).countP
      (fun m => decide (m.name = n)) = 0 := by
    rw [List.countP_eq_zero]
    intro m hm hpname
    have hmem := (List.mem_filter.mp hm).1
    have hnid := (List.mem_filter.mp hm).2
    have hmn : m.name = n := of_decide_eq_true hpname
    have heq : m = m0 := countP_one_unique _ ms hcount m hmem
      (decide_eq_true hmn) m0 hm0 (decide_eq_true hname)
    rw [heq] at hnid
    simp [List.contains] at hnid
  rw [h1]
  simp [hnew]

/-- Claim C4: for a resolvable project whose model listing comes back as a
list: with `force=False` a duplicate name fails with the `ValueError` (the
spec's `ConflictError`, whose message names the containing project) and
issues no delete call, leaving the remote models unchanged; with
`force=True` and the duplicate name unique in the listing it issues exactly
one delete call naming exactly that model, and after the forced push imports
the new model exactly one model of that name remains; with no duplicate the
call is a no-op for either flag. -/
theorem C4_model_exists_force (r : Remote) (shape : List RModel → ModelsResponse)
    (pref n : String) (p : RProject)
    (hp : getProject r (some pref) = some p)
    (hsh : shape (modelsOf r p.id) = .list (modelsOf r p.id)) :
    ((∃ m ∈ modelsOf r p.id, m.name = n) →
      model_exists r shape pref n false =
        ([], .error (.valueErrorModelConflict p.name))) ∧
    (∀ m0 ∈ modelsOf r p.id, m0.name = n →
      (modelsOf r p.id).countP (fun m => decide (m.name = n)) = 1 →
      model_exists r shape pref n true = ([m0.id], .ok ()) ∧
      ∀ newM : RModel, newM.name = n →
        (((modelsOf r p.id).filter
            (fun m => !(([m0.id] : List String).contains m.id))) ++ [newM]).countP
          (fun m => decide (m.name = n)) = 1) ∧
    ((∀ m ∈ modelsOf r p.id, ¬ m.name = n) → ∀ force,
      model_exists r shape pref n force = ([], .ok ())) := by
  have hred : ∀ force, model_exists r shape pref n force =
      modelExistsList p.name n force (modelsOf r p.id) := by
    intro force
    unfold model_exists
    rw [hp]
    dsimp only
    rw [hsh]
  refine ⟨?_, ?_, ?_⟩
  · intro hex
    rw [hred]
    exact modelExistsList_conflict p.name n _ hex
  · intro m0 hm0 hname hcount
    refine ⟨?_, fun newM hnew => count_after_forced _ m0 newM n hm0 hname hcount hnew⟩
    rw [hred]
    exact modelExistsList_unique p.name n _ m0 hm0 hname hcount
  · intro hno force
    rw [hred]
    exact modelExistsList_nomatch p.name n force _ hno

/-- Witness for C4 at concrete inputs: project "P" holds exactly one model
named "m"; without force the conflict error is raised and nothing is
deleted, with force exactly one delete call naming that model is issued. -/
theorem C4_model_exists_force_witness :
    model_exists sampleRemote (fun ms => ModelsResponse.list ms) "P" "m" false =
      ([], .error (.valueErrorModelConflict "P")) ∧
    model_exists sampleRemote (fun ms => ModelsResponse.list ms) "P" "m" true =
      (["0123456789abcdef0123456789abcdef"], .ok ()) := by
  have h := C4_model_exists_force sampleRemote (fun ms => ModelsResponse.list ms)
    "P" "m" { id := "p1", name := "P" } rfl rfl
  exact ⟨h.1 ⟨sampleModel, List.mem_cons_self _ _, rfl⟩,
    (h.2.1 sampleModel (List.mem_cons_self _ _) rfl (by rfl)).1⟩

/-- Claim C5 (amended): for a project holding exactly one model, `model_exists`
on a single-object response with at least one JSON key reaches the same
outcome as on the one-element-list response — same error or success, a
deletion happens in one iff it happens in the other, and every delete call
names the same model id — but the NUMBER of delete calls differs: the
single-object shape issues one delete call per key of the object (here
`fields.length`) where the list shape issues exactly one. -/
theorem C5_response_shape_outcomes (r : Remote) (pref n : String) (p : RProject)
    (m : RModel) (fields : List String) (force : Bool)
    (hp : getProject r (some pref) = some p)
    (hms : modelsOf r p.id = [m])
    (hf : fields ≠ []) :
    (model_exists r (fun _ => .single m fields) pref n force).2 =
      (model_exists r (fun ms => .list ms) pref n force).2 ∧
    ((model_exists r (fun _ => .single m fields) pref n force).1 = [] ↔
      (model_exists r (fun ms => .list ms) pref n force).1 = []) ∧
    (∀ i, i ∈ (model_exists r (fun _ => .single m fields) pref n force).1 ↔
      i ∈ (model_exists r (fun ms => .list ms) pref n force).1) ∧
    (model_exists r (fun _ => .single m fields) pref n force).1.length =
      (if m.name = n ∧ force = true then fields.length else 0) ∧
    (model_exists r (fun ms => .list ms) pref n force).1.length =
      (if m.name = n ∧ force = true then 1 else 0) := by
  have hs : model_exists r (fun _ => .single m fields) pref n force =
      modelExistsSingle p.name n force m fields := by
    unfold model_exists
    rw [hp]
  have hl : model_exists r (fun ms => .list ms) pref n force =
      modelExistsList p.name n force [m] := by
    unfold model_exists
    rw [hp]
    dsimp only
    rw [hms]
  rw [hs, hl]
  obtain ⟨k, rest, rfl⟩ : ∃ k rest, fields = k :: rest := by
    cases fields with
    | nil => exact absurd rfl hf
    | cons k rest => exact ⟨k, rest, rfl⟩
  by_cases hm : m.name = n
  · cases force
    · rw [modelExistsSingle_conflict p.name n m hm k rest,
        modelExistsList_conflict p.name n [m] ⟨m, by simp, hm⟩]
      simp [hm]
    · rw [modelExistsSingle_force p.name n m hm (k :: rest),
        modelExistsList_unique p.name n [m] m (by simp) hm (by simp [hm])]
      refine ⟨rfl, by simp, ?_, by simp [hm], by simp [hm]⟩
      intro i
      simp [List.mem_map, eq_comm]
  · rw [modelExistsSingle_nomatch p.name n force m hm (k :: rest),
      modelExistsList_nomatch p.name n force [m] (by simpa using hm)]
    simp [hm]

/-- Witness for C5 at concrete inputs: project "P" with the one model
`sampleModel`; the single-object shape with keys ["name", "id"] and the
one-element-list shape agree on the result and the delete-call counts are
`fields.length` and one respectively. -/
theorem C5_response_shape_outcomes_witness :
    (model_exists sampleRemote
        (fun _ => ModelsResponse.single sampleModel ["name", "id"]) "P" "m" true).2 =
      (model_exists sampleRemote (fun ms => ModelsResponse.list ms) "P" "m" true).2 ∧
    (model_exists sampleRemote
        (fun _ => ModelsResponse.single sampleModel ["name", "id"]) "P" "m" true).1.length =
      (if sampleModel.name = "m" ∧ true = true
        then (["name", "id"] : List String).length else 0) := by
  have h := C5_response_shape_outcomes sampleRemote "P" "m" { id := "p1", name := "P" }
    sampleModel ["name", "id"] true rfl rfl (by simp)
  exact ⟨h.1, h.2.2.2.1⟩

/-- Counterexample to C5 as stated: at the same one-model project, the
single-object response (two keys) issues two delete calls where the
one-element-list response issues one — the number of delete calls is not
the same. -/
theorem C5_delete_call_count_counterexample :
    (model_exists sampleRemote
        (fun _ => ModelsResponse.single sampleModel ["name", "id"]) "P" "m" true).1.length ≠
    (model_exists sampleRemote
        (fun ms => ModelsResponse.list ms) "P" "m" true).1.length := by
  decide

/-! ### The push-then-pull round trip (claim C3) -/

theorem push_fresh_remote (dir0 : Dir) (pn mn pv fp fm : String)
    (shape : List RModel → ModelsResponse)
    (hpn : pyUUIDOk pn = false)
    (hsh : shape [] = .list []) :
    push_git_model { projects := [], models := [] } dir0 (.both pn mn) pv shape fp fm =
      ({ projects := [{ id := fp, name := pn }],
         models := [{ id := fm, name := mn, projectId := fp, projectName := pn,
                      content := .zip (sortByName
                        (dir0.filter (fun e => !endsWithZip e.1))) }] },
       writeEntry (mn ++ ".zip")
         (.zip (sortByName (dir0.filter (fun e => !endsWithZip e.1))))
         (dir0.filter (fun e => !endsWithZip e.1)),
       .ok ()) := by
  have h2 : project_exists { projects := [], models := [] } none pn fp =
      ({ projects := [{ id := fp, name := pn }], models := [] },
        .ok { id := fp, name := pn }) := by
    simp [project_exists, hpn]
  have h3 : getProject { projects := [{ id := fp, name := pn }], models := [] }
      (some pn) = some { id := fp, name := pn } := by
    simp [getProject, List.find?]
  have h4 : model_exists { projects := [{ id := fp, name := pn }], models := [] }
      shape pn mn true = ([], .ok ()) := by
    unfold model_exists
    rw [h3]
    dsimp only
    have hmempty : modelsOf { projects := [{ id := fp, name := pn }], models := [] }
        fp = [] := rfl
    rw [hmempty, hsh]
    rfl
  have h5 : pushRemote { projects := [], models := [] } pn mn
      (sortByName (dir0.filter (fun e => !endsWithZip e.1))) shape fp fm =
      ({ projects := [{ id := fp, name := pn }],
         models := [{ id := fm, name := mn, projectId := fp, projectName := pn,
                      content := .zip (sortByName
                        (dir0.filter (fun e => !endsWithZip e.1))) }] },
       .ok ()) := by
    unfold pushRemote
    have h1 : getProject ({ projects := [], models := [] } : Remote) (some pn) =
        none := rfl
    rw [h1, h2]
    dsimp only
    rw [h4]
    rfl
  show pushCore _ dir0 pn mn pv shape fp fm = _
  simp only [pushCore, h5]

theorem gzmWriteZip_empty (pn mn : String) (z : FData) :
    gzmWriteZip emptyFS pn mn z =
      { projectDirs := [pn], modelDirs := [((pn, mn), [(mn ++ ".zip", z)])] } := by
  have hproj : emptyFS.hasProjectDir pn = false := rfl
  unfold gzmWriteZip
  rw [hproj]
  simp [emptyFS, LocalFS.mkProjectDir, LocalFS.mkModelDir, LocalFS.hasProjectDir,
    LocalFS.hasModelDir, LocalFS.writeModelFile, writeEntry]

theorem pull_by_id (r : Remote) (mid : String) (newM : RModel)
    (arch : List (String × FData)) (shape : List RModel → ModelsResponse)
    (hid : pyUUIDOk mid = true)
    (hget : getModel r mid = some newM)
    (hcontent : newM.content = .zip arch)
    (harchnames : ∀ e ∈ arch, endsWithZip e.1 = false)
    (hnd : (arch.map Prod.fst).Nodup) :
    pull_viya_model r emptyFS (.str mid) none shape =
      ({ projectDirs := [newM.projectName],
         modelDirs := [((newM.projectName, newM.name), arch)] },
       [newM.id], .ok (newM.name, newM.projectName)) := by
  have hgz : get_zipped_model r emptyFS (.str mid) (some newM.projectName) =
      ({ projectDirs := [newM.projectName],
         modelDirs := [((newM.projectName, newM.name),
           [(newM.name ++ ".zip", newM.content)])] },
       [newM.id], .ok (newM.name, newM.projectName)) := by
    unfold get_zipped_model gzmResolve
    dsimp only
    rw [hid]
    simp only [if_true, eq_self_iff_true]
    rw [hget]
    dsimp only
    rw [gzmWriteZip_empty]
  have htry : pullTryBody r emptyFS mid =
      ({ projectDirs := [newM.projectName],
         modelDirs := [((newM.projectName, newM.name),
           [(newM.name ++ ".zip", newM.content)])] },
       [newM.id], .ok (newM.name, newM.projectName)) := by
    unfold pullTryBody
    rw [hget]
    exact hgz
  have hfs1get : LocalFS.getDir
      { projectDirs := [newM.projectName],
        modelDirs := [((newM.projectName, newM.name),
          [(newM.name ++ ".zip", newM.content)])] }
      newM.projectName newM.name = some [(newM.name ++ ".zip", newM.content)] := by
    simp [LocalFS.getDir, List.find?]
  have hlk : lookupEntry [(newM.name ++ ".zip", newM.content)] (newM.name ++ ".zip") =
      some newM.content := by
    simp [lookupEntry, List.find?]
  have hfresh : ∀ e ∈ arch,
      hasName [(newM.name ++ ".zip", FData.zip arch)] e.1 = false := by
    intro e he
    simp only [hasName, List.any_cons, List.any_nil, Bool.or_false,
      decide_eq_false_iff_not]
    intro heq
    have hz := endsWithZip_append newM.name
    rw [heq, harchnames e he] at hz
    exact Bool.false_ne_true hz
  have hfold : arch.foldl (fun acc e => writeEntry e.1 e.2 acc)
      [(newM.name ++ ".zip", FData.zip arch)] =
      [(newM.name ++ ".zip", FData.zip arch)] ++ arch :=
    foldl_writeEntry_fresh arch _ hfresh hnd
  have hfilter : (([(newM.name ++ ".zip", FData.zip arch)] ++ arch).filter
      (fun e => !endsWithZip e.1)) = arch := by
    rw [List.filter_append]
    have h1 : ([(newM.name ++ ".zip", FData.zip arch)] : Dir).filter
        (fun e => !endsWithZip e.1) = [] := by
      simp [endsWithZip_append]
    rw [h1, filter_strip_eq_self arch harchnames]
    rfl
  have hex : pullExtract
      { projectDirs := [newM.projectName],
        modelDirs := [((newM.projectName, newM.name),
          [(newM.name ++ ".zip", newM.content)])] }
      newM.name newM.projectName =
      ({ projectDirs := [newM.projectName],
         modelDirs := [((newM.projectName, newM.name), arch)] }, .ok ()) := by
    unfold pullExtract
    rw [hfs1get]
    dsimp only
    rw [hlk]
    rw [hcontent]
    dsimp only
    rw [hfold, hfilter]
    simp [LocalFS.setDir]
  unfold pull_viya_model pullPhase1
  dsimp only
  rw [hid]
  simp only [if_true, eq_self_iff_true]
  rw [htry]
  dsimp only
  rw [hex]

/-- Claim C3 (amended): for every local model directory of top-level regular
files none of which matches `*.zip`, pushing it (to a fresh remote, under a
plain-name project, with a fresh valid-UUID model id) and then pulling the
resulting remote model by id into an empty working tree reproduces a model
directory whose entries are a permutation of the original files — the same
set of file names and byte contents.  A file named `*.zip` is instead
deleted by the push before packing and does not round-trip. -/
theorem C3_push_pull_round_trip (dir0 : Dir) (pn mn pv fp fm : String)
    (shape1 shape2 : List RModel → ModelsResponse)
    (hnd : (dir0.map Prod.fst).Nodup)
    (hnz : ∀ e ∈ dir0, endsWithZip e.1 = false)
    (hpn : pyUUIDOk pn = false)
    (hfm : pyUUIDOk fm = true)
    (hsh : shape1 [] = .list []) :
    (push_git_model { projects := [], models := [] } dir0 (.both pn mn) pv
        shape1 fp fm).2.2 = .ok () ∧
    ∃ d,
      pull_viya_model
        (push_git_model { projects := [], models := [] } dir0 (.both pn mn) pv
          shape1 fp fm).1 emptyFS (.str fm) none shape2 =
        ({ projectDirs := [pn], modelDirs := [((pn, mn), d)] },
          [fm], .ok (mn, pn)) ∧
      d.Perm dir0 := by
  have hpush := push_fresh_remote dir0 pn mn pv fp fm shape1 hpn hsh
  have hstrip : dir0.filter (fun e => !endsWithZip e.1) = dir0 :=
    filter_strip_eq_self dir0 hnz
  rw [hstrip] at hpush
  rw [hpush]
  constructor
  · rfl
  · refine ⟨sortByName dir0, ?_, sortByName_perm dir0⟩
    have harchnames : ∀ e ∈ sortByName dir0, endsWithZip e.1 = false := by
      intro e he
      exact hnz e ((sortByName_perm dir0).mem_iff.mp he)
    have hnd2 : ((sortByName dir0).map Prod.fst).Nodup := by
      have hperm := (sortByName_perm dir0).map Prod.fst
      exact hperm.nodup_iff.mpr hnd
    have hget : getModel
        { projects := [{ id := fp, name := pn }],
          models := [{ id := fm, name := mn, projectId := fp, projectName := pn,
                       content := .zip (sortByName dir0) }] } fm =
        some { id := fm, name := mn, projectId := fp, projectName := pn,
               content := .zip (sortByName dir0) } := by
      simp [getModel, List.find?]
    exact pull_by_id _ fm _ (sortByName dir0) shape2 hfm hget rfl harchnames hnd2

/-- Witness for C3: a one-file directory pushed and pulled back reproduces
exactly its file. -/
theorem C3_push_pull_round_trip_witness :
    (push_git_model { projects := [], models := [] }
        [("score.py", FData.bytes [1, 2])] (.both "P" "m") "latest"
        (fun ms => ModelsResponse.list ms) "p1"
        "0123456789abcdef0123456789abcdef").2.2 = .ok () ∧
    ∃ d,
      pull_viya_model
        (push_git_model { projects := [], models := [] }
          [("score.py", FData.bytes [1, 2])] (.both "P" "m") "latest"
          (fun ms => ModelsResponse.list ms) "p1"
          "0123456789abcdef0123456789abcdef").1 emptyFS
        (.str "0123456789abcdef0123456789abcdef") none
        (fun ms => ModelsResponse.list ms) =
        ({ projectDirs := ["P"], modelDirs := [(("P", "m"), d)] },
          ["0123456789abcdef0123456789abcdef"], .ok ("m", "P")) ∧
      d.Perm [("score.py", FData.bytes [1, 2])] :=
  C3_push_pull_round_trip [("score.py", FData.bytes [1, 2])] "P" "m" "latest" "p1"
    "0123456789abcdef0123456789abcdef" (fun ms => ModelsResponse.list ms)
    (fun ms => ModelsResponse.list ms) (by simp) (by decide) (by decide) (by decide) rfl

/-- Counterexample to C3 as stated: a directory whose only top-level regular
file is named "a.zip" does not round-trip — the push deletes it before
packing yet completes, and the pulled-back model directory is empty while
the original directory was not. -/
theorem C3_zip_file_counterexample :
    (push_git_model { projects := [], models := [] } [("a.zip", FData.bytes [7])]
        (.both "P" "m") "latest" (fun ms => ModelsResponse.list ms) "p1"
        "0123456789abcdef0123456789abcdef").2.2 = .ok () ∧
    (pull_viya_model
        (push_git_model { projects := [], models := [] }
          [("a.zip", FData.bytes [7])] (.both "P" "m") "latest"
          (fun ms => ModelsResponse.list ms) "p1"
          "0123456789abcdef0123456789abcdef").1 emptyFS
        (.str "0123456789abcdef0123456789abcdef") none
        (fun ms => ModelsResponse.list ms)).1.getDir "P" "m" = some [] ∧
    [("a.zip", FData.bytes [7])] ≠ ([] : Dir) :=
  ⟨rfl, rfl, by simp⟩
